import Mathlib

/-!
Verification of the compressed-bitset repository (word codec, varint codec,
bitset list) against its natural-language specification.

Machine integers are modelled as `Nat` with explicit `% 2^32` (`wrap32`)
where C unsigned arithmetic can wrap.  Byte buffers (`char *`) are modelled
as `List Nat` whose elements are the bytes read back as `unsigned char`
(values `< 256`); out-of-range reads, which in C touch unspecified memory,
return the default byte `0`.  Word arrays are serialized to bytes in
little-endian order, matching the reference platform's `memcpy` of
`uint32_t` values.
-/

/-! ## Word codec (include/bitset/bitset.h macros) -/

def BITSET_WORD_LENGTH : Nat := 32

/-- BITSET_LOG2(v) = (8 - 90/(((v)/4+14)|1) - 2/((v)/2+1)) -/
def BITSET_LOG2 (v : Nat) : Nat := 8 - 90 / ((v / 4 + 14) ||| 1) - 2 / (v / 2 + 1)

def BITSET_POSITION_LENGTH : Nat := BITSET_LOG2 BITSET_WORD_LENGTH

def BITSET_FILL_BIT : Nat := 1 <<< (BITSET_WORD_LENGTH - 1)

def BITSET_SPAN_LENGTH : Nat := BITSET_WORD_LENGTH - BITSET_POSITION_LENGTH - 1

def BITSET_POSITION_MASK : Nat := ((1 <<< BITSET_POSITION_LENGTH) - 1) <<< BITSET_SPAN_LENGTH

def BITSET_LENGTH_MASK : Nat := (1 <<< BITSET_SPAN_LENGTH) - 1

def BITSET_LITERAL_LENGTH : Nat := BITSET_WORD_LENGTH - 1

def BITSET_IS_FILL_WORD (word : Nat) : Bool := word &&& BITSET_FILL_BIT != 0

def BITSET_IS_LITERAL_WORD (word : Nat) : Bool := word &&& BITSET_FILL_BIT == 0

def BITSET_GET_LENGTH (word : Nat) : Nat := word &&& BITSET_LENGTH_MASK

def BITSET_SET_LENGTH (word len : Nat) : Nat := word ||| len

def BITSET_GET_POSITION (word : Nat) : Nat :=
  (word &&& BITSET_POSITION_MASK) >>> BITSET_SPAN_LENGTH

def BITSET_SET_POSITION (word pos : Nat) : Nat := word ||| (pos <<< BITSET_SPAN_LENGTH)

def BITSET_UNSET_POSITION (word : Nat) : Nat :=
  word &&& (4294967295 - BITSET_POSITION_MASK)

def BITSET_CREATE_FILL (len pos : Nat) : Nat :=
  BITSET_SET_POSITION (BITSET_FILL_BIT ||| len) (pos + 1)

def BITSET_CREATE_EMPTY_FILL (len : Nat) : Nat := BITSET_FILL_BIT ||| len

def BITSET_CREATE_LITERAL (bit : Nat) : Nat := (1 <<< (BITSET_WORD_LENGTH - 2)) >>> bit

def BITSET_MAX_LENGTH : Nat := BITSET_LENGTH_MASK

/-! ## Varint codec (src/list.c) -/

def bitset_encoded_length_required_bytes (length : Nat) : Nat :=
  if length < 1 <<< 6 then 1
  else if length < 1 <<< 14 then 2
  else if length < 1 <<< 22 then 3
  else 4

/-- The encoder from src/list.c.  Every occurrence of `length % 256` is the
C cast `(unsigned char)length`, which the source applies BEFORE the right
shifts, so the shifted high-byte expressions are always zero. -/
def bitset_encoded_length_bytes (length : Nat) : List Nat :=
  if length < 1 <<< 6 then
    [length % 256]
  else if length < 1 <<< 14 then
    [0x40 ||| ((length % 256) >>> 8),
     (length % 256) &&& 0xFF]
  else if length < 1 <<< 22 then
    [0x80 ||| ((length % 256) >>> 16),
     ((length % 256) >>> 8) &&& 0xFF,
     (length % 256) &&& 0xFF]
  else
    [0xC0 ||| ((length % 256) >>> 24),
     ((length % 256) >>> 16) &&& 0xFF,
     ((length % 256) >>> 8) &&& 0xFF,
     (length % 256) &&& 0xFF]

def bitset_encoded_length_size (buffer : List Nat) : Nat :=
  match (buffer.getD 0 0) &&& 0xC0 with
  | 0x00 => 1
  | 0x40 => 2
  | 0x80 => 3
  | _ => 4

def bitset_encoded_length (buffer : List Nat) : Nat :=
  match (buffer.getD 0 0) &&& 0xC0 with
  | 0x00 => buffer.getD 0 0
  | 0x40 => ((buffer.getD 0 0 &&& 0x3F) <<< 8) + buffer.getD 1 0
  | 0x80 => ((buffer.getD 0 0 &&& 0x3F) <<< 16) + ((buffer.getD 1 0) <<< 8) + buffer.getD 2 0
  | _ => ((buffer.getD 0 0 &&& 0x3F) <<< 24) + ((buffer.getD 1 0) <<< 16) +
         ((buffer.getD 2 0) <<< 8) + buffer.getD 3 0

/-! ## Claims C1, C2, C9: codec-level facts -/

lemma and_0xC0_of_lt_64 : ∀ b, b < 64 → b &&& 0xC0 = 0 := by decide

/-- Claim C1.  The header's own macros put the fill length in the LOW 26
BITS (not 25): `BITSET_SPAN_LENGTH` evaluates to 26, `BITSET_MAX_LENGTH`
to `2^26 - 1`, and the position field sits in bits 26..30.  On the word
`0x82000002` — the word the repository's own test suite expects
`bitset_set_to(b, 93, true)` to append after the fill `0x80000001`
("Testing append after fill", test.c), which under the 25-bit layout of
the claim and of the tests encodes a fill with length 2 and absorbed-bit
position 0 (stored position field 1) — the macros instead read length
`0x2000002` and position 0, and `BITSET_CREATE_FILL(2,0)` produces
`0x84000002`, not the `0x82000002` the tests demand.  The code therefore
contradicts its own tests; the claim describes the intended layout. -/
theorem fill_layout_uses_26_bit_length :
    BITSET_SPAN_LENGTH = 26 ∧
    BITSET_MAX_LENGTH = 2 ^ 26 - 1 ∧
    BITSET_MAX_LENGTH ≠ 2 ^ 25 - 1 ∧
    BITSET_POSITION_MASK = 0x7C000000 ∧
    BITSET_GET_LENGTH 0x82000002 = 0x2000002 ∧
    BITSET_GET_POSITION 0x82000002 = 0 ∧
    BITSET_CREATE_FILL 2 0 = 0x84000002 := by decide

set_option maxRecDepth 8192 in
/-- Values below 256 survive the encoder truncation, so 256 is the least
input on which the varint round-trip fails. -/
lemma varint_roundtrip_below_256 :
    ∀ n, n < 256 → bitset_encoded_length (bitset_encoded_length_bytes n) = n := by
  decide

/-- Claim C2.  The varint encoder drops every bit above bit 7 of the
value: the C source shifts AFTER casting to `unsigned char`
(`(unsigned char)length >> 8` is always 0), so the decoder cannot recover
any value `≥ 256`.  At the failing input 256 the encoder emits
`[0x40, 0x00]` and the decoder returns 0.  (The encoder does choose the
claimed shortest byte counts — see the claim C9 theorem — and values
below 256 do round-trip, see varint_roundtrip_below_256, so 256 is the
least failing input.) -/
theorem varint_roundtrip_fails_at_256 :
    bitset_encoded_length_bytes 256 = [0x40, 0x00] ∧
    bitset_encoded_length (bitset_encoded_length_bytes 256) = 0 ∧
    bitset_encoded_length_required_bytes 256 = 2 ∧
    (bitset_encoded_length_bytes 256).length = 2 := by
  refine ⟨by decide, by decide, by decide, by decide⟩

/-- Claim C9.  For every value below `2^30`, the two-bit prefix of the
first byte the encoder writes makes `bitset_encoded_length_size` return
exactly `bitset_encoded_length_required_bytes` of the value, and the
encoder writes exactly that many bytes, so a reader always advances past
an encoded integer by the number of bytes the writer reserved. -/
theorem varint_size_matches_required_bytes (n : Nat) (h : n < 2 ^ 30) :
    bitset_encoded_length_size (bitset_encoded_length_bytes n) =
      bitset_encoded_length_required_bytes n ∧
    (bitset_encoded_length_bytes n).length =
      bitset_encoded_length_required_bytes n := by
  by_cases h1 : n < 64
  · have hm : n % 256 = n := Nat.mod_eq_of_lt (by omega)
    have ha : n &&& 0xC0 = 0 := and_0xC0_of_lt_64 n h1
    unfold bitset_encoded_length_bytes bitset_encoded_length_size
      bitset_encoded_length_required_bytes
    simp [h1, hm, ha, List.getD]
  · have hs8 : (n % 256) >>> 8 = 0 := by
      rw [Nat.shiftRight_eq_div_pow]
      omega
    have hs16 : (n % 256) >>> 16 = 0 := by
      rw [Nat.shiftRight_eq_div_pow]
      have : (2 : Nat) ^ 16 = 65536 := by norm_num
      omega
    have hs24 : (n % 256) >>> 24 = 0 := by
      rw [Nat.shiftRight_eq_div_pow]
      have : (2 : Nat) ^ 24 = 16777216 := by norm_num
      omega
    by_cases h2 : n < 16384
    · unfold bitset_encoded_length_bytes bitset_encoded_length_size
        bitset_encoded_length_required_bytes
      simp [h1, h2, hs8, List.getD]
    · by_cases h3 : n < 4194304
      · unfold bitset_encoded_length_bytes bitset_encoded_length_size
          bitset_encoded_length_required_bytes
        simp [h1, h2, h3, hs16, List.getD]
      · unfold bitset_encoded_length_bytes bitset_encoded_length_size
          bitset_encoded_length_required_bytes
        simp [h1, h2, h3, hs24, List.getD]

theorem varint_size_matches_required_bytes_witness :
    (1000 : Nat) < 2 ^ 30 ∧
    (bitset_encoded_length_size (bitset_encoded_length_bytes 1000) =
        bitset_encoded_length_required_bytes 1000 ∧
      (bitset_encoded_length_bytes 1000).length =
        bitset_encoded_length_required_bytes 1000) :=
  ⟨by decide, varint_size_matches_required_bytes 1000 (by decide)⟩

/-! ## Bitset list (src/list.c) -/

/-- Little-endian serialization of a word array, matching `memcpy` of
`uint32_t` values on the little-endian reference platform. -/
def bitset_word_bytes (ws : List Nat) : List Nat :=
  (ws.map (fun w => [w % 256, w / 256 % 256, w / 65536 % 256, w / 16777216 % 256])).flatten

/-- Reading a word count back out of the byte buffer, as the iterator's
`(bitset_word *) buffer` borrow does. -/
def bitset_words_of_bytes : Nat → List Nat → List Nat
  | 0, _ => []
  | n + 1, bs =>
    (bs.getD 0 0 + 256 * bs.getD 1 0 + 65536 * bs.getD 2 0 + 16777216 * bs.getD 3 0)
      :: bitset_words_of_bytes n (bs.drop 4)

/-- The observable fields of `bitset_list`: `length` is `buffer.length`
and `size` (allocation capacity) is not observable.  `tail` is the byte
index of the last entry's header (`NULL`, i.e. `none`, when empty). -/
structure BitsetList where
  buffer : List Nat
  count : Nat
  tail_offset : Nat
  tail : Option Nat
  deriving DecidableEq

def bitset_list_new : BitsetList := ⟨[], 0, 0, none⟩

/-- bitset_list_push from src/list.c.  The C function terminates the
process (`exit(1)`) when `offset < c->tail_offset`, before any mutation;
that fatal path is modelled as `none`. -/
def bitset_list_push (c : BitsetList) (b : List Nat) (offset : Nat) : Option BitsetList :=
  if offset < c.tail_offset then
    none
  else
    let relative_offset := offset - c.tail_offset
    some { buffer := c.buffer ++ bitset_encoded_length_bytes relative_offset
             ++ bitset_encoded_length_bytes b.length ++ bitset_word_bytes b,
           count := c.count + 1,
           tail_offset := offset,
           tail := some c.buffer.length }

/-- The header-replaying loop of bitset_list_new_buffer.  `fuel` bounds
the iteration count; each iteration consumes at least two bytes, so
`fuel = bytes.length` never runs out before the C loop condition
`i < c->length` fails.  Returns (count, tail_offset, tail). -/
def bitset_list_replay : Nat → List Nat → Nat → Nat → Nat → Option Nat → Nat × Nat × Option Nat
  | 0, _, _, count, toff, tail => (count, toff, tail)
  | fuel + 1, rest, pos, count, toff, tail =>
    match rest with
    | [] => (count, toff, tail)
    | _ :: _ =>
      let toff2 := toff + bitset_encoded_length rest
      let offset_bytes := bitset_encoded_length_size rest
      let rest2 := rest.drop offset_bytes
      let len := bitset_encoded_length rest2
      let length_bytes := bitset_encoded_length_size rest2
      let skip := offset_bytes + length_bytes + 4 * len
      bitset_list_replay fuel (rest.drop skip) (pos + skip) (count + 1) toff2 (some pos)

def bitset_list_new_buffer (bytes : List Nat) : BitsetList :=
  let r := bitset_list_replay bytes.length bytes 0 0 0 none
  ⟨bytes, r.1, r.2.1, r.2.2⟩

/-- The scanning loop of bitset_list_iterator_new: decodes each entry's
two varint headers, keeps the entry when
`offset >= start && (!end || offset < end)`, and materializes the
borrowed word view.  Yields the parallel (offsets, bitsets) arrays as a
list of pairs. -/
def bitset_list_iterator_loop : Nat → List Nat → Nat → Nat → Nat → List (Nat × List Nat)
  | 0, _, _, _, _ => []
  | fuel + 1, rest, offset, start, e =>
    match rest with
    | [] => []
    | _ :: _ =>
      let offset2 := offset + bitset_encoded_length rest
      let offset_bytes := bitset_encoded_length_size rest
      let rest2 := rest.drop offset_bytes
      let len := bitset_encoded_length rest2
      let length_bytes := bitset_encoded_length_size rest2
      let rest3 := rest2.drop length_bytes
      let here :=
        if decide (start ≤ offset2) && (e == 0 || decide (offset2 < e)) then
          [(offset2, bitset_words_of_bytes len rest3)]
        else []
      here ++ bitset_list_iterator_loop fuel (rest3.drop (4 * len)) offset2 start e

def bitset_list_iterator_new (c : BitsetList) (start e : Nat) : List (Nat × List Nat) :=
  bitset_list_iterator_loop c.buffer.length c.buffer 0 start e

/-- Modelled from the spec: the header list.h is not under src, so the
sentinel bounds BITSET_LIST_START and BITSET_LIST_END are reconstructed
from the spec's "either bound may be open sentinels meaning −∞/+∞" and
from the code in src/list.c, which treats `end = 0` as "no upper bound"
(`!end`) while `start = 0` imposes no lower constraint on unsigned
offsets; the full-range special case in bitset_list_iterator_new
preallocates exactly `c->count` slots, confirming that the sentinel pair
selects every entry.  Both sentinels are therefore 0. -/
def BITSET_LIST_START : Nat := 0

/-- Modelled from the spec: see BITSET_LIST_START. -/
def BITSET_LIST_END : Nat := 0

/-! ## Claims C3, C4, C5, C10: list-level facts -/

/-- The window iterator is the full scan filtered by the half-open window
predicate `start <= o && (end == 0 || o < end)`: both loops walk the same
entries in the same order and differ only in the inclusion test. -/
lemma iterator_loop_eq_filter (fuel : Nat) :
    ∀ rest offset start e,
      bitset_list_iterator_loop fuel rest offset start e =
        (bitset_list_iterator_loop fuel rest offset 0 0).filter
          (fun p => decide (start ≤ p.1) && (e == 0 || decide (p.1 < e))) := by
  induction fuel with
  | zero => intro rest offset start e; rfl
  | succ n ih =>
    intro rest offset start e
    cases rest with
    | nil => rfl
    | cons b bs =>
      simp only [bitset_list_iterator_loop]
      conv_lhs => rw [ih]
      rw [List.filter_append]
      congr 1
      simp only [Nat.zero_le, decide_True, beq_self_eq_true, Bool.true_or,
        Bool.true_and, Bool.and_self, if_true]
      by_cases hkeep :
          (decide (start ≤ offset + bitset_encoded_length (b :: bs)) &&
            (e == 0 || decide (offset + bitset_encoded_length (b :: bs) < e))) = true
      · simp [hkeep]
      · simp [hkeep]

/-- Claim C4.  bitset_list_push fails fatally (modelled as `none`, since
the C function calls `exit(1)` before touching the list, leaving it
unchanged) exactly when `offset < tail_offset`; any `offset ≥
tail_offset` — including a duplicate equal to `tail_offset` — succeeds. -/
theorem push_fails_iff_offset_below_tail (c : BitsetList) (b : List Nat) (offset : Nat) :
    (bitset_list_push c b offset = none ↔ offset < c.tail_offset) ∧
    (bitset_list_push c b c.tail_offset).isSome = true := by
  constructor
  · unfold bitset_list_push
    by_cases h : offset < c.tail_offset
    · simp [h]
    · simp [h]
  · unfold bitset_list_push
    simp

/-- Claim C5.  The iterator yields exactly the entries of the buffer
whose (decoded) absolute offset o satisfies `start ≤ o` and, unless the
upper bound is the open sentinel 0, `o < end`, in buffer order: every
window iterator equals the full scan filtered by the window predicate.
For the concrete list of the claim — entries pushed at offsets 3
(bits {10}: the single literal 0x00100000) and 10 (a two-word stream) —
the window [3,10) yields only the offset-3 entry, the window [4,5)
yields nothing, and the full-range iterator yields both in order. -/
theorem iterator_window_semantics :
    (∀ (c : BitsetList) (start e : Nat),
      bitset_list_iterator_new c start e =
        (bitset_list_iterator_new c BITSET_LIST_START BITSET_LIST_END).filter
          (fun p => decide (start ≤ p.1) && (e == 0 || decide (p.1 < e)))) ∧
    ((bitset_list_push bitset_list_new [0x00100000] 3).bind
        (fun l => bitset_list_push l [0x90000003, 0x12345678] 10)).map
      (fun l => (bitset_list_iterator_new l 3 10,
                 bitset_list_iterator_new l 4 5,
                 bitset_list_iterator_new l BITSET_LIST_START BITSET_LIST_END)) =
      some ([(3, [0x00100000])], [],
            [(3, [0x00100000]), (10, [0x90000003, 0x12345678])]) := by
  constructor
  · intro c start e
    exact iterator_loop_eq_filter c.buffer.length c.buffer 0 start e
  · rfl

/-- Claim C10.  bitset_list_iterator_new treats `end = 0` as unbounded
above (the C test is `!end || offset < end`): with `end = 0` the
iterator yields every entry whose decoded absolute offset is at least
`start`, so the empty half-open window [start, 0) is not expressible
through this interface. -/
theorem iterator_end_zero_is_unbounded (c : BitsetList) (start : Nat) :
    bitset_list_iterator_new c start 0 =
      (bitset_list_iterator_new c BITSET_LIST_START BITSET_LIST_END).filter
        (fun p => decide (start ≤ p.1)) := by
  have h := iterator_loop_eq_filter c.buffer.length c.buffer 0 start 0
  have hp : (fun (p : Nat × List Nat) =>
      decide (start ≤ p.1) && ((0 : Nat) == 0 || decide (p.1 < 0))) =
      (fun p => decide (start ≤ p.1)) := by
    funext p
    simp
  unfold bitset_list_iterator_new
  rw [h, hp]
  rfl

/-- Claim C3.  The list buffer round-trip is broken by the varint
encoder truncation: pushing an empty bitset at offset 256 into a fresh
list stores the delta as [0x40, 0x00], so bitset_list_new_buffer
re-derives tail_offset 0 instead of 256 (count and the tail header
index do survive the replay, as shown). -/
theorem list_buffer_roundtrip_loses_tail_offset :
    (bitset_list_push bitset_list_new [] 256).map
      (fun l => (l.tail_offset, l.count, l.tail, l.buffer,
                 (bitset_list_new_buffer l.buffer).tail_offset,
                 (bitset_list_new_buffer l.buffer).count,
                 (bitset_list_new_buffer l.buffer).tail)) =
      some (256, 1, some 0, [0x40, 0x00, 0x00], 0, 1, some 0) := by
  rfl

/-! ## Spec-modelled bitset engine (bitset.c is not under src) -/

/-- Modelled from the spec: bitset.c (the C2 bitset engine) is not under
src — only its header declarations are — so the encoded word stream is
modelled at the field level of §3: a literal word carries its 31-bit
payload, a fill word carries the clean-run length L and the stored
position field P (0 = no absorbed bit, else absorbed-bit index + 1). -/
inductive EncWord where
  | lit (payload : Nat)
  | fill (L P : Nat)
  deriving DecidableEq

/-- Payload bit k (0 ≤ k ≤ 30) of a literal is word bit 30 − k, the
convention fixed by BITSET_CREATE_LITERAL in the header under src. -/
def bitset_literal_test (p k : Nat) : Bool := p.testBit (30 - k)

/-- Modelled from the spec: §4.2 get — walk the words with a logical
block cursor; inside a literal test the bit, inside a fill's clean span
answer false, on a fill's absorbed block compare the in-block position
with P − 1, past the end answer false. -/
def bitset_get_blocks : List EncWord → Nat → Nat → Bool
  | [], _, _ => false
  | .lit p :: rest, B, pos =>
    if B = 0 then bitset_literal_test p pos else bitset_get_blocks rest (B - 1) pos
  | .fill L P :: rest, B, pos =>
    if B < L then false
    else if 0 < P then
      if B = L then decide (pos = P - 1)
      else bitset_get_blocks rest (B - L - 1) pos
    else bitset_get_blocks rest (B - L) pos

def bitset_get (ws : List EncWord) (o : Nat) : Bool :=
  bitset_get_blocks ws (o / 31) (o % 31)

/-- Modelled from the spec: §9 fixes the canonical chaining threshold at
2^25 − 1 (BITSET_LENGTH_MASK in the spec's sense), used when a past-end
set must bridge a gap with several fills. -/
def BITSET_SPEC_MAX_FILL : Nat := 2 ^ 25 - 1

/-- Modelled from the spec: §4.2 set sub-case 1 (past end) — append
fill(s) describing the gap of B clean blocks, absorbing the new bit into
the last fill's position, or a lone literal when there is no gap. -/
def bitset_append_bit (B pos : Nat) : List EncWord :=
  if B = 0 then [.lit (BITSET_CREATE_LITERAL pos)]
  else if B % BITSET_SPEC_MAX_FILL > 0 then
    List.replicate (B / BITSET_SPEC_MAX_FILL) (.fill BITSET_SPEC_MAX_FILL 0) ++
      [.fill (B % BITSET_SPEC_MAX_FILL) (pos + 1)]
  else
    List.replicate (B / BITSET_SPEC_MAX_FILL - 1) (.fill BITSET_SPEC_MAX_FILL 0) ++
      [.fill BITSET_SPEC_MAX_FILL (pos + 1)]

/-- Modelled from the spec: §4.2 set, the walk over the five sub-cases.
Returns (previous value, updated word stream before re-canonicalization).
Sub-case 4 splits a fill at block B into a head fill absorbing the new
bit (a lone literal when the head is degenerate) and a trailing fill
keeping the old position, materialized as a literal when the trailing
length is zero. -/
def bitset_set_blocks : List EncWord → Nat → Nat → Bool → Bool × List EncWord
  | [], B, pos, v =>
    if v then (false, bitset_append_bit B pos) else (false, [])
  | .lit p :: rest, B, pos, v =>
    if B = 0 then
      let old := bitset_literal_test p pos
      let p2 := if v then p ||| BITSET_CREATE_LITERAL pos
                else p &&& (2147483647 - BITSET_CREATE_LITERAL pos)
      (old, .lit p2 :: rest)
    else
      let r := bitset_set_blocks rest (B - 1) pos v
      (r.1, .lit p :: r.2)
  | .fill L P :: rest, B, pos, v =>
    if B < L then
      if v then
        let head : List EncWord := if B = 0 then [] else [.fill B (pos + 1)]
        let head_bit : List EncWord :=
          if B = 0 then [.lit (BITSET_CREATE_LITERAL pos)] else []
        let trail : List EncWord :=
          if 0 < L - B - 1 then [.fill (L - B - 1) P]
          else if 0 < P then [.lit (BITSET_CREATE_LITERAL (P - 1))]
          else []
        (false, head ++ head_bit ++ trail ++ rest)
      else (false, .fill L P :: rest)
    else if 0 < P then
      if B = L then
        if v then
          if pos = P - 1 then (true, .fill L P :: rest)
          else (false, .fill L 0 ::
            .lit (BITSET_CREATE_LITERAL (P - 1) ||| BITSET_CREATE_LITERAL pos) :: rest)
        else
          if pos = P - 1 then
            (true, .fill L 0 ::
              (match rest with
               | .fill L2 P2 :: rest2 => .fill (L2 + 1) P2 :: rest2
               | _ => .lit 0 :: rest))
          else (false, .fill L P :: rest)
      else
        let r := bitset_set_blocks rest (B - L - 1) pos v
        (r.1, .fill L P :: r.2)
    else
      let r := bitset_set_blocks rest (B - L) pos v
      (r.1, .fill L P :: r.2)

/-- Index of the single set payload bit of a literal, when there is
exactly one. -/
def bitset_single_bit (p : Nat) : Option Nat :=
  if p != 0 && (p &&& (p - 1)) == 0 then
    (List.range 31).find? (fun k => p == BITSET_CREATE_LITERAL k)
  else none

/-- Modelled from the spec: the §3 canonical coalescing rules applied as
a pass — a fill with P = 0 merges into a following fill by summing
lengths (rule 3, up to the chaining threshold), absorbs a following
single-bit literal into its position (rule 4), and swallows a following
all-zero literal (rule 5 with rule 3). -/
def bitset_canon : List EncWord → List EncWord
  | [] => []
  | w :: rest =>
    match w, bitset_canon rest with
    | .fill L1 P1, .fill L2 P2 :: rest2 =>
      if P1 = 0 ∧ L1 + L2 ≤ BITSET_SPEC_MAX_FILL then .fill (L1 + L2) P2 :: rest2
      else .fill L1 P1 :: .fill L2 P2 :: rest2
    | .fill L1 P1, .lit p :: rest2 =>
      if P1 = 0 then
        match bitset_single_bit p with
        | some k => .fill L1 (k + 1) :: rest2
        | none =>
          if p = 0 then .fill (L1 + 1) 0 :: rest2
          else .fill L1 P1 :: .lit p :: rest2
      else .fill L1 P1 :: .lit p :: rest2
    | w2, tail => w2 :: tail

def bitset_word_is_empty : EncWord → Bool
  | .lit p => p == 0
  | .fill _ P => P == 0

/-- Modelled from the spec: canonical rule 1 — no trailing empty words. -/
def bitset_canon_trim (ws : List EncWord) : List EncWord :=
  (ws.reverse.dropWhile bitset_word_is_empty).reverse

/-- Modelled from the spec: §4.2 set = the sub-case walk followed by
restoring canonical form. -/
def bitset_set_to (ws : List EncWord) (o : Nat) (v : Bool) : Bool × List EncWord :=
  let r := bitset_set_blocks ws (o / 31) (o % 31) v
  (r.1, bitset_canon_trim (bitset_canon r.2))

/-- Smallest set payload-bit index of a literal (payload bit 0 is the
most-significant non-sign word bit, so it is the smallest offset). -/
def bitset_first_set (p : Nat) : Nat :=
  ((List.range 31).find? (fun k => bitset_literal_test p k)).getD 0

def bitset_last_set (p : Nat) : Nat :=
  ((List.range 31).reverse.find? (fun k => bitset_literal_test p k)).getD 0

/-- Modelled from the spec: §4.2 min — the first set-bit-bearing word
determines the answer; 0 when the walk finds nothing (empty-bitset
convention of §7). -/
def bitset_min_go : List EncWord → Nat → Nat
  | [], _ => 0
  | .lit p :: rest, blk =>
    if p ≠ 0 then blk * 31 + bitset_first_set p else bitset_min_go rest (blk + 1)
  | .fill L P :: rest, blk =>
    if 0 < P then (blk + L) * 31 + (P - 1) else bitset_min_go rest (blk + L)

def bitset_min (ws : List EncWord) : Nat := bitset_min_go ws 0

/-- Modelled from the spec: §4.2 max — symmetric to min, the last
set-bit-bearing word determines the answer; 0 when there is none. -/
def bitset_max_go : List EncWord → Nat → Nat → Nat
  | [], _, acc => acc
  | .lit p :: rest, blk, acc =>
    bitset_max_go rest (blk + 1) (if p ≠ 0 then blk * 31 + bitset_last_set p else acc)
  | .fill L P :: rest, blk, acc =>
    bitset_max_go rest (blk + L + (if 0 < P then 1 else 0))
      (if 0 < P then (blk + L) * 31 + (P - 1) else acc)

def bitset_max (ws : List EncWord) : Nat := bitset_max_go ws 0 0

/-- Modelled from the spec: §4.2 count — popcounts of literal payloads
plus one per fill with P > 0. -/
def bitset_count (ws : List EncWord) : Nat :=
  ws.foldl
    (fun acc w =>
      match w with
      | .lit p => acc + (List.range 31).countP (fun k => bitset_literal_test p k)
      | .fill _ P => acc + (if 0 < P then 1 else 0))
    0

/-! ## Claims C6 and C7 -/

/-- Claim C6, counterexample.  The claimed result stream
`[fill L=1 P=0][literal 0x40000000]` cannot be what `set(b, 32, true)`
leaves, and its literal does not have bit index 1 set: under the
literal-bit convention of the header's own BITSET_CREATE_LITERAL macro,
0x40000000 is the literal with bit index 0 (absolute offset 31), the
literal with bit index 1 is 0x20000000, and `get` on the claimed stream
returns false at offset 32 — contradicting the claim's own final
conjunct `get(b, 32) = true`.  The spec-modelled set also does not
produce the claimed stream. -/
theorem fill_partition_claim_false :
    bitset_get [.fill 1 0, .lit 0x40000000] 32 = false ∧
    BITSET_CREATE_LITERAL 1 ≠ 0x40000000 ∧
    BITSET_CREATE_LITERAL 0 = 0x40000000 ∧
    (bitset_set_to [.fill 2 0] 32 true).2 ≠ [.fill 1 0, .lit 0x40000000] := by
  refine ⟨by decide, by decide, by decide, by decide⟩

/-- Claim C6, amended.  Starting from the stream `[fill L=2 P=0]`,
`set(b, 32, true)` returns previous value false and leaves the single
word `[fill L=1 P=2]`: one clean block, then the absorbed bit at
in-block position 1 of block 1 (offset 32) — the canonical fold (rule 4)
of `[fill L=1 P=0][literal 0x20000000]`, where 0x20000000, not
0x40000000, is the literal with only bit index 1 set.  Afterwards
`get(b, 32)` returns true (as it does on the unfolded form). -/
theorem fill_partition_amended :
    bitset_set_to [.fill 2 0] 32 true = (false, [.fill 1 2]) ∧
    bitset_get [.fill 1 2] 32 = true ∧
    BITSET_CREATE_LITERAL 1 = 0x20000000 ∧
    bitset_get [.fill 1 0, .lit 0x20000000] 32 = true := by
  refine ⟨by decide, by decide, by decide, by decide⟩

/-- Claim C7.  The query operations are plain total functions in the
model (no failure channel, matching the spec's "total functions and do
not fail"), and on the empty bitset (word stream of length 0) min and
max both return 0 by convention; get answers false everywhere on the
empty bitset and count is 0. -/
theorem query_ops_total_empty_min_max_zero :
    bitset_min [] = 0 ∧ bitset_max [] = 0 ∧ bitset_count [] = 0 ∧
    (∀ o, bitset_get [] o = false) := by
  refine ⟨rfl, rfl, rfl, fun o => rfl⟩

/-! ## Claim C8: BITSET_CREATE_LITERAL and BITSET_POP_COUNT -/

def wrap32 (x : Nat) : Nat := x % 4294967296

/-- BITSET_POP_COUNT(c, w) from the header, as the amount added to c:
w &= P1; w -= (w>>1) & P2; w = (w & P3) + ((w>>2) & P3);
w = (w + (w>>4)) & P4; c += (w * P5) >> (32 - 8).  All statements are
32-bit unsigned C arithmetic, so the subtraction is two's-complement
(written with + 2^32 here) and the addition and multiplication wrap. -/
def BITSET_POP_COUNT (w : Nat) : Nat :=
  let w1 := w &&& 0x7FFFFFFF
  let w2 := wrap32 (w1 + 4294967296 - ((w1 >>> 1) &&& 0x55555555))
  let w3 := wrap32 ((w2 &&& 0x33333333) + ((w2 >>> 2) &&& 0x33333333))
  let w4 := wrap32 (w3 + (w3 >>> 4)) &&& 0x0F0F0F0F
  wrap32 (w4 * 0x01010101) >>> (BITSET_WORD_LENGTH - 8)

/-- Number of set bits of a natural number (fuel-based binary recursion,
so that it evaluates by kernel reduction). -/
def bitCountAux : Nat → Nat → Nat
  | 0, _ => 0
  | fuel + 1, n => if n = 0 then 0 else n % 2 + bitCountAux fuel (n / 2)

def bitCount (n : Nat) : Nat := bitCountAux n n

lemma bitCountAux_zero : ∀ fuel, bitCountAux fuel 0 = 0 := by
  intro fuel
  cases fuel <;> simp [bitCountAux]

lemma bitCountAux_congr :
    ∀ n f1 f2, n ≤ f1 → n ≤ f2 → bitCountAux f1 n = bitCountAux f2 n := by
  intro n
  induction n using Nat.strong_induction_on with
  | _ n ih =>
    intro f1 f2 hf1 hf2
    rcases Nat.eq_zero_or_pos n with hn | hn
    · subst hn
      rw [bitCountAux_zero, bitCountAux_zero]
    · obtain ⟨g1, rfl⟩ : ∃ g1, f1 = g1 + 1 := ⟨f1 - 1, by omega⟩
      obtain ⟨g2, rfl⟩ : ∃ g2, f2 = g2 + 1 := ⟨f2 - 1, by omega⟩
      simp only [bitCountAux, if_neg (by omega : ¬ n = 0)]
      have hlt : n / 2 < n := Nat.div_lt_self hn (by omega)
      rw [ih (n / 2) hlt g1 (n / 2) (by omega) (by omega),
          ih (n / 2) hlt g2 (n / 2) (by omega) (by omega)]

lemma bitCount_unfold (n : Nat) : bitCount n = n % 2 + bitCount (n / 2) := by
  rcases Nat.eq_zero_or_pos n with hn | hn
  · subst hn
    simp [bitCount, bitCountAux_zero]
  · obtain ⟨m, rfl⟩ : ∃ m, n = m + 1 := ⟨n - 1, by omega⟩
    show bitCountAux (m + 1) (m + 1) = (m + 1) % 2 + bitCount ((m + 1) / 2)
    simp only [bitCountAux, if_neg (by omega : ¬ m + 1 = 0)]
    congr 1
    exact bitCountAux_congr ((m + 1) / 2) m ((m + 1) / 2) (by omega) (by omega)

lemma bitCount_add_mul_two_pow :
    ∀ k a b, a < 2 ^ k → bitCount (a + 2 ^ k * b) = bitCount a + bitCount b := by
  intro k
  induction k with
  | zero =>
    intro a b ha
    have : a = 0 := by omega
    subst this
    have h0 : bitCount 0 = 0 := rfl
    simp [h0]
  | succ k ih =>
    intro a b ha
    have hsplit : a + 2 ^ (k + 1) * b = a + 2 * (2 ^ k * b) := by ring
    rw [hsplit, bitCount_unfold (a + 2 * (2 ^ k * b)), bitCount_unfold a]
    have hmod : (a + 2 * (2 ^ k * b)) % 2 = a % 2 := by omega
    have hdiv : (a + 2 * (2 ^ k * b)) / 2 = a / 2 + 2 ^ k * b := by omega
    have ha2 : a / 2 < 2 ^ k := by
      have hp : (2 : Nat) ^ (k + 1) = 2 ^ k * 2 := by ring
      rw [hp] at ha
      exact Nat.div_lt_of_lt_mul (by omega)
    rw [hmod, hdiv, ih (a / 2) b ha2]
    omega

/-- Splitting a bitwise AND at a power-of-two boundary. -/
lemma and_split_two_pow (k x m : Nat) :
    x &&& m = ((x % 2 ^ k) &&& (m % 2 ^ k)) + 2 ^ k * ((x / 2 ^ k) &&& (m / 2 ^ k)) := by
  have hb : (x % 2 ^ k) &&& (m % 2 ^ k) < 2 ^ k :=
    Nat.and_lt_two_pow _ (Nat.mod_lt _ (Nat.two_pow_pos k))
  apply Nat.eq_of_testBit_eq
  intro j
  rw [Nat.add_comm, Nat.testBit_mul_pow_two_add _ hb]
  by_cases hj : j < k
  · simp [hj, Nat.testBit_and, Nat.testBit_mod_two_pow]
  · have hx : x / 2 ^ k = x >>> k := (Nat.shiftRight_eq_div_pow x k).symm
    have hm : m / 2 ^ k = m >>> k := (Nat.shiftRight_eq_div_pow m k).symm
    have hjk : k + (j - k) = j := by omega
    simp [hj, Nat.testBit_and, hx, hm, Nat.testBit_shiftRight, hjk]

/-- Splitting a bitwise AND of 32-bit values into the four bytes. -/
lemma and_split_bytes (x m : Nat) :
    x &&& m = ((x % 256) &&& (m % 256))
      + 256 * (((x / 256) % 256) &&& ((m / 256) % 256))
      + 65536 * (((x / 65536) % 256) &&& ((m / 65536) % 256))
      + 16777216 * ((x / 16777216) &&& (m / 16777216)) := by
  have e8 : (2 : Nat) ^ 8 = 256 := by norm_num
  have h1 := and_split_two_pow 8 x m
  have h2 := and_split_two_pow 8 (x / 256) (m / 256)
  have h3 := and_split_two_pow 8 (x / 256 / 256) (m / 256 / 256)
  rw [e8] at h1 h2 h3
  have dx1 : x / 256 / 256 = x / 65536 := by omega
  have dm1 : m / 256 / 256 = m / 65536 := by omega
  have dx2 : x / 65536 / 256 = x / 16777216 := by omega
  have dm2 : m / 65536 / 256 = m / 16777216 := by omega
  rw [dx1, dm1] at h3
  rw [dx2, dm2] at h3
  rw [h1, h2, dx1, dm1, h3]
  ring

/-- Per-byte effect of the first SWAR step, b - ((b >> 1) & 0x55). -/
def bStep1 (b : Nat) : Nat := b - ((b / 2) &&& 0x55)

/-- Per-byte effect of the second SWAR step, (c & 0x33) + ((c >> 2) & 0x33). -/
def bStep2 (c : Nat) : Nat := (c &&& 0x33) + ((c / 4) &&& 0x33)

set_option maxRecDepth 16384

lemma byte_mask55 :
    ∀ b, b < 256 → ∀ e, e < 2 → ((b / 2 + 128 * e) &&& 0x55) = (b / 2) &&& 0x55 := by decide

lemma byte_sub_le : ∀ b, b < 256 → ((b / 2) &&& 0x55) ≤ b := by decide

lemma byte_mask33 :
    ∀ c, c < 256 → ∀ e, e < 4 → ((c / 4 + 64 * e) &&& 0x33) = (c / 4) &&& 0x33 := by decide

lemma byte_step2_le : ∀ c, c < 256 → bStep2 c ≤ 102 := by decide

lemma byte_nibbles :
    ∀ b, b < 256 → bStep2 (bStep1 b) % 16 ≤ 4 ∧ bStep2 (bStep1 b) / 16 ≤ 4 := by decide

lemma byte_mask0F :
    ∀ d, d < 256 → d % 16 ≤ 4 → d / 16 ≤ 4 →
      ∀ e, e < 5 → ((d + d / 16 + 16 * e) &&& 0x0F) = d % 16 + d / 16 := by decide

lemma byte_popcount :
    ∀ b, b < 256 → bStep2 (bStep1 b) % 16 + bStep2 (bStep1 b) / 16 = bitCount b := by decide

lemma byte_mask0F_last :
    ∀ d, d < 256 → d % 16 ≤ 4 → d / 16 ≤ 4 →
      ((d + d / 16) &&& 0x0F) = d % 16 + d / 16 := by decide

/-- Byte recomposition of a 32-bit value. -/
lemma byte_recompose (x b0 b1 b2 b3 : Nat)
    (e0 : b0 = x % 256) (e1 : b1 = x / 256 % 256)
    (e2 : b2 = x / 65536 % 256) (e3 : b3 = x / 16777216)
    (hx : x < 4294967296) :
    x = b0 + 256 * b1 + 65536 * b2 + 16777216 * b3 := by
  omega

/-- Bytes of a half: shifting right by one moves each byte's low bit into
the next-lower byte's top bit. -/
lemma half_bytes (x b0 b1 b2 b3 : Nat)
    (e0 : b0 = x % 256) (e1 : b1 = x / 256 % 256)
    (e2 : b2 = x / 65536 % 256) (e3 : b3 = x / 16777216) :
    x / 2 % 256 = b0 / 2 + 128 * (b1 % 2) ∧
    x / 2 / 256 % 256 = b1 / 2 + 128 * (b2 % 2) ∧
    x / 2 / 65536 % 256 = b2 / 2 + 128 * (b3 % 2) ∧
    x / 2 / 16777216 = b3 / 2 :=
  ⟨by omega, by omega, by omega, by omega⟩

/-- Bytes of a four-byte sum. -/
lemma sum_bytes (c0 c1 c2 c3 : Nat)
    (h0 : c0 < 256) (h1 : c1 < 256) (h2 : c2 < 256) (h3 : c3 < 256) :
    (c0 + 256 * c1 + 65536 * c2 + 16777216 * c3) % 256 = c0 ∧
    (c0 + 256 * c1 + 65536 * c2 + 16777216 * c3) / 256 % 256 = c1 ∧
    (c0 + 256 * c1 + 65536 * c2 + 16777216 * c3) / 65536 % 256 = c2 ∧
    (c0 + 256 * c1 + 65536 * c2 + 16777216 * c3) / 16777216 = c3 :=
  ⟨by omega, by omega, by omega, by omega⟩

/-- Bytes of a quarter of a four-byte sum: shifting right by two moves
each byte's low two bits into the next-lower byte's top bits. -/
lemma sum_quarter_bytes (c0 c1 c2 c3 : Nat)
    (h0 : c0 < 256) (h1 : c1 < 256) (h2 : c2 < 256) (h3 : c3 < 256) :
    (c0 + 256 * c1 + 65536 * c2 + 16777216 * c3) / 4 % 256 = c0 / 4 + 64 * (c1 % 4) ∧
    (c0 + 256 * c1 + 65536 * c2 + 16777216 * c3) / 4 / 256 % 256 = c1 / 4 + 64 * (c2 % 4) ∧
    (c0 + 256 * c1 + 65536 * c2 + 16777216 * c3) / 4 / 65536 % 256 = c2 / 4 + 64 * (c3 % 4) ∧
    (c0 + 256 * c1 + 65536 * c2 + 16777216 * c3) / 4 / 16777216 = c3 / 4 :=
  ⟨by omega, by omega, by omega, by omega⟩

/-- The two's-complement subtraction of the first SWAR step works
byte-wise: no borrow crosses a byte boundary. -/
lemma sub_bytes (x b0 b1 b2 b3 s0 s1 s2 s3 : Nat)
    (hx : x = b0 + 256 * b1 + 65536 * b2 + 16777216 * b3)
    (hb0 : b0 < 256) (hb1 : b1 < 256) (hb2 : b2 < 256) (hb3 : b3 < 128)
    (hs0 : s0 ≤ b0) (hs1 : s1 ≤ b1) (hs2 : s2 ≤ b2) (hs3 : s3 ≤ b3) :
    (x + 4294967296 - (s0 + 256 * s1 + 65536 * s2 + 16777216 * s3)) % 4294967296
      = (b0 - s0) + 256 * (b1 - s1) + 65536 * (b2 - s2) + 16777216 * (b3 - s3) := by
  omega

/-- The addition of the second SWAR step works byte-wise: both summands
are masked down to at most 0x33 per nibble pair, so no carry crosses a
byte boundary and the 32-bit wrap is vacuous. -/
lemma masked_sum (a0 a1 a2 a3 e0 e1 e2 e3 : Nat)
    (ha0 : a0 ≤ 51) (ha1 : a1 ≤ 51) (ha2 : a2 ≤ 51) (ha3 : a3 ≤ 51)
    (he0 : e0 ≤ 51) (he1 : e1 ≤ 51) (he2 : e2 ≤ 51) (he3 : e3 ≤ 51) :
    ((a0 + 256 * a1 + 65536 * a2 + 16777216 * a3)
      + (e0 + 256 * e1 + 65536 * e2 + 16777216 * e3)) % 4294967296
      = (a0 + e0) + 256 * (a1 + e1) + 65536 * (a2 + e2) + 16777216 * (a3 + e3) := by
  omega

/-- The addition of the third SWAR step works byte-wise: each byte holds
two nibble counts of at most 4, so byte sums stay below 256 and the
32-bit wrap is vacuous. -/
lemma nibble_carry (d0 d1 d2 d3 : Nat)
    (h0a : d0 % 16 ≤ 4) (h0b : d0 / 16 ≤ 4) (h1a : d1 % 16 ≤ 4) (h1b : d1 / 16 ≤ 4)
    (h2a : d2 % 16 ≤ 4) (h2b : d2 / 16 ≤ 4) (h3a : d3 % 16 ≤ 4) (h3b : d3 / 16 ≤ 4) :
    (d0 + 256 * d1 + 65536 * d2 + 16777216 * d3
      + (d0 + 256 * d1 + 65536 * d2 + 16777216 * d3) / 16) % 4294967296
      = (d0 + d0 / 16 + 16 * (d1 % 16)) + 256 * (d1 + d1 / 16 + 16 * (d2 % 16))
        + 65536 * (d2 + d2 / 16 + 16 * (d3 % 16)) + 16777216 * (d3 + d3 / 16) := by
  omega

/-- Per-byte value of the third SWAR step stays below 256. -/
lemma nibble_byte_lt (d e : Nat) (hda : d % 16 ≤ 4) (hdb : d / 16 ≤ 4) (he : e ≤ 4) :
    d + d / 16 + 16 * e < 256 := by
  omega

/-- Per-byte value of the third SWAR step's top byte stays below 256. -/
lemma nibble_byte_lt_top (d : Nat) (hda : d % 16 ≤ 4) (hdb : d / 16 ≤ 4) :
    d + d / 16 < 256 := by
  omega

/-- The final SWAR step: multiplying the per-byte counts by 0x01010101
accumulates their sum in the top byte, which the shift by 24 extracts. -/
lemma final_mul (g0 g1 g2 g3 : Nat)
    (h0 : g0 ≤ 8) (h1 : g1 ≤ 8) (h2 : g2 ≤ 8) (h3 : g3 ≤ 8) :
    wrap32 ((g0 + 256 * g1 + 65536 * g2 + 16777216 * g3) * 0x01010101) >>> 24
      = g0 + g1 + g2 + g3 := by
  have hprod : (g0 + 256 * g1 + 65536 * g2 + 16777216 * g3) * 0x01010101
      = (g0 + 256 * (g0 + g1) + 65536 * (g0 + g1 + g2) + 16777216 * (g0 + g1 + g2 + g3))
        + 4294967296 * ((g1 + g2 + g3) + 256 * (g2 + g3) + 65536 * g3) := by
    ring
  have hlow : g0 + 256 * (g0 + g1) + 65536 * (g0 + g1 + g2)
      + 16777216 * (g0 + g1 + g2 + g3) < 4294967296 := by omega
  have hmod : wrap32 ((g0 + 256 * g1 + 65536 * g2 + 16777216 * g3) * 0x01010101)
      = (g0 + 256 * (g0 + g1) + 65536 * (g0 + g1 + g2))
        + 16777216 * (g0 + g1 + g2 + g3) := by
    unfold wrap32
    rw [hprod, Nat.add_mul_mod_self_left, Nat.mod_eq_of_lt hlow]
  rw [hmod, Nat.shiftRight_eq_div_pow]
  have h24 : (2 : Nat) ^ 24 = 16777216 := by norm_num
  rw [h24, Nat.add_mul_div_left _ _ (by norm_num : (0 : Nat) < 16777216),
      Nat.div_eq_of_lt (by omega), Nat.zero_add]

/-- Correctness of the SWAR pipeline: BITSET_POP_COUNT counts exactly
the set bits among the 31 payload bits of its argument. -/
lemma swar_correct (w : Nat) (hw : w < 4294967296) :
    BITSET_POP_COUNT w = bitCount (w % 2147483648) := by
  have hP1 : w &&& 0x7FFFFFFF = w % 2147483648 := by
    have h : (0x7FFFFFFF : Nat) = 2 ^ 31 - 1 := by norm_num
    have h2 : (2147483648 : Nat) = 2 ^ 31 := by norm_num
    rw [h, h2, Nat.and_pow_two_sub_one_eq_mod]
  set x := w % 2147483648 with hxdef
  have hx : x < 2147483648 := by
    rw [hxdef]
    exact Nat.mod_lt _ (by norm_num)
  set b0 := x % 256 with hb0def
  set b1 := x / 256 % 256 with hb1def
  set b2 := x / 65536 % 256 with hb2def
  set b3 := x / 16777216 with hb3def
  have hb0 : b0 < 256 := by
    rw [hb0def]
    exact Nat.mod_lt _ (by norm_num)
  have hb1 : b1 < 256 := by
    rw [hb1def]
    exact Nat.mod_lt _ (by norm_num)
  have hb2 : b2 < 256 := by
    rw [hb2def]
    exact Nat.mod_lt _ (by norm_num)
  have hb3 : b3 < 128 := by
    rw [hb3def, Nat.div_lt_iff_lt_mul (by norm_num : (0 : Nat) < 16777216)]
    exact Nat.lt_of_lt_of_le hx (by norm_num)
  have hx_sum : x = b0 + 256 * b1 + 65536 * b2 + 16777216 * b3 :=
    byte_recompose x b0 b1 b2 b3 hb0def hb1def hb2def hb3def
      (Nat.lt_of_lt_of_le hx (by norm_num))
  -- step 1: w -= (w >> 1) & 0x55555555
  have hsh1 : x >>> 1 = x / 2 := by
    simp [Nat.shiftRight_eq_div_pow]
  have hhb := half_bytes x b0 b1 b2 b3 hb0def hb1def hb2def hb3def
  have hm1 : (x / 2) &&& 0x55555555
      = ((b0 / 2) &&& 0x55) + 256 * ((b1 / 2) &&& 0x55)
        + 65536 * ((b2 / 2) &&& 0x55) + 16777216 * ((b3 / 2) &&& 0x55) := by
    rw [and_split_bytes (x / 2) 0x55555555]
    have hmA : (0x55555555 : Nat) % 256 = 0x55 := by norm_num
    have hmD : (0x55555555 : Nat) / 16777216 = 0x55 := by norm_num
    rw [hmA, hmD, hhb.1, hhb.2.1, hhb.2.2.1, hhb.2.2.2,
        byte_mask55 b0 hb0 (b1 % 2) (Nat.mod_lt _ (by norm_num)),
        byte_mask55 b1 hb1 (b2 % 2) (Nat.mod_lt _ (by norm_num)),
        byte_mask55 b2 hb2 (b3 % 2) (Nat.mod_lt _ (by norm_num))]
  set s0 := (b0 / 2) &&& 0x55 with hs0def
  set s1 := (b1 / 2) &&& 0x55 with hs1def
  set s2 := (b2 / 2) &&& 0x55 with hs2def
  set s3 := (b3 / 2) &&& 0x55 with hs3def
  have hs0 : s0 ≤ b0 := by
    rw [hs0def]
    exact byte_sub_le b0 hb0
  have hs1 : s1 ≤ b1 := by
    rw [hs1def]
    exact byte_sub_le b1 hb1
  have hs2 : s2 ≤ b2 := by
    rw [hs2def]
    exact byte_sub_le b2 hb2
  have hs3 : s3 ≤ b3 := by
    rw [hs3def]
    exact byte_sub_le b3 (Nat.lt_of_lt_of_le hb3 (by norm_num))
  have hw2 : wrap32 (x + 4294967296 - ((x >>> 1) &&& 0x55555555))
      = (b0 - s0) + 256 * (b1 - s1) + 65536 * (b2 - s2) + 16777216 * (b3 - s3) := by
    simp only [wrap32]
    rw [hsh1, hm1]
    exact sub_bytes x b0 b1 b2 b3 s0 s1 s2 s3 hx_sum hb0 hb1 hb2 hb3 hs0 hs1 hs2 hs3
  set c0 := b0 - s0 with hc0def
  set c1 := b1 - s1 with hc1def
  set c2 := b2 - s2 with hc2def
  set c3 := b3 - s3 with hc3def
  have hc0lt : c0 < 256 := by
    rw [hc0def]
    exact Nat.lt_of_le_of_lt (Nat.sub_le _ _) hb0
  have hc1lt : c1 < 256 := by
    rw [hc1def]
    exact Nat.lt_of_le_of_lt (Nat.sub_le _ _) hb1
  have hc2lt : c2 < 256 := by
    rw [hc2def]
    exact Nat.lt_of_le_of_lt (Nat.sub_le _ _) hb2
  have hc3lt : c3 < 256 := by
    rw [hc3def]
    exact Nat.lt_of_le_of_lt (Nat.sub_le _ _) (Nat.lt_of_lt_of_le hb3 (by norm_num))
  have hc0eq : c0 = bStep1 b0 := by rw [hc0def, hs0def, bStep1]
  have hc1eq : c1 = bStep1 b1 := by rw [hc1def, hs1def, bStep1]
  have hc2eq : c2 = bStep1 b2 := by rw [hc2def, hs2def, bStep1]
  have hc3eq : c3 = bStep1 b3 := by rw [hc3def, hs3def, bStep1]
  -- step 2: w = (w & 0x33333333) + ((w >> 2) & 0x33333333)
  have hsb := sum_bytes c0 c1 c2 c3 hc0lt hc1lt hc2lt hc3lt
  have hqb := sum_quarter_bytes c0 c1 c2 c3 hc0lt hc1lt hc2lt hc3lt
  set W2 := c0 + 256 * c1 + 65536 * c2 + 16777216 * c3 with hW2def
  have hsh2 : W2 >>> 2 = W2 / 4 := by
    simp [Nat.shiftRight_eq_div_pow]
  have hm2a : W2 &&& 0x33333333
      = (c0 &&& 0x33) + 256 * (c1 &&& 0x33)
        + 65536 * (c2 &&& 0x33) + 16777216 * (c3 &&& 0x33) := by
    rw [and_split_bytes W2 0x33333333]
    have hmA : (0x33333333 : Nat) % 256 = 0x33 := by norm_num
    have hmD : (0x33333333 : Nat) / 16777216 = 0x33 := by norm_num
    rw [hmA, hmD, hsb.1, hsb.2.1, hsb.2.2.1, hsb.2.2.2]
  have hm2b : (W2 / 4) &&& 0x33333333
      = ((c0 / 4) &&& 0x33) + 256 * ((c1 / 4) &&& 0x33)
        + 65536 * ((c2 / 4) &&& 0x33) + 16777216 * ((c3 / 4) &&& 0x33) := by
    rw [and_split_bytes (W2 / 4) 0x33333333]
    have hmA : (0x33333333 : Nat) % 256 = 0x33 := by norm_num
    have hmD : (0x33333333 : Nat) / 16777216 = 0x33 := by norm_num
    rw [hmA, hmD, hqb.1, hqb.2.1, hqb.2.2.1, hqb.2.2.2,
        byte_mask33 c0 hc0lt (c1 % 4) (Nat.mod_lt _ (by norm_num)),
        byte_mask33 c1 hc1lt (c2 % 4) (Nat.mod_lt _ (by norm_num)),
        byte_mask33 c2 hc2lt (c3 % 4) (Nat.mod_lt _ (by norm_num))]
  have hw3 : wrap32 ((W2 &&& 0x33333333) + ((W2 >>> 2) &&& 0x33333333))
      = bStep2 c0 + 256 * bStep2 c1 + 65536 * bStep2 c2 + 16777216 * bStep2 c3 := by
    simp only [wrap32]
    rw [hsh2, hm2a, hm2b,
        show bStep2 c0 = (c0 &&& 0x33) + ((c0 / 4) &&& 0x33) from rfl,
        show bStep2 c1 = (c1 &&& 0x33) + ((c1 / 4) &&& 0x33) from rfl,
        show bStep2 c2 = (c2 &&& 0x33) + ((c2 / 4) &&& 0x33) from rfl,
        show bStep2 c3 = (c3 &&& 0x33) + ((c3 / 4) &&& 0x33) from rfl]
    exact masked_sum _ _ _ _ _ _ _ _
      Nat.and_le_right Nat.and_le_right Nat.and_le_right Nat.and_le_right
      Nat.and_le_right Nat.and_le_right Nat.and_le_right Nat.and_le_right
  set d0 := bStep2 c0 with hd0def
  set d1 := bStep2 c1 with hd1def
  set d2 := bStep2 c2 with hd2def
  set d3 := bStep2 c3 with hd3def
  have hd0n : d0 % 16 ≤ 4 ∧ d0 / 16 ≤ 4 := by
    rw [hd0def, hc0eq]
    exact byte_nibbles b0 hb0
  have hd1n : d1 % 16 ≤ 4 ∧ d1 / 16 ≤ 4 := by
    rw [hd1def, hc1eq]
    exact byte_nibbles b1 hb1
  have hd2n : d2 % 16 ≤ 4 ∧ d2 / 16 ≤ 4 := by
    rw [hd2def, hc2eq]
    exact byte_nibbles b2 hb2
  have hd3n : d3 % 16 ≤ 4 ∧ d3 / 16 ≤ 4 := by
    rw [hd3def, hc3eq]
    exact byte_nibbles b3 (Nat.lt_of_lt_of_le hb3 (by norm_num))
  -- step 3: w = (w + (w >> 4)) & 0x0F0F0F0F
  have hnc := nibble_carry d0 d1 d2 d3 hd0n.1 hd0n.2 hd1n.1 hd1n.2
    hd2n.1 hd2n.2 hd3n.1 hd3n.2
  set W3 := d0 + 256 * d1 + 65536 * d2 + 16777216 * d3 with hW3def
  have hsh4 : W3 >>> 4 = W3 / 16 := by
    simp [Nat.shiftRight_eq_div_pow]
  have hw4 : wrap32 (W3 + W3 >>> 4) &&& 0x0F0F0F0F
      = (d0 % 16 + d0 / 16) + 256 * (d1 % 16 + d1 / 16)
        + 65536 * (d2 % 16 + d2 / 16) + 16777216 * (d3 % 16 + d3 / 16) := by
    simp only [wrap32]
    rw [hsh4, hnc]
    have hv0 : d0 + d0 / 16 + 16 * (d1 % 16) < 256 :=
      nibble_byte_lt d0 (d1 % 16) hd0n.1 hd0n.2 hd1n.1
    have hv1 : d1 + d1 / 16 + 16 * (d2 % 16) < 256 :=
      nibble_byte_lt d1 (d2 % 16) hd1n.1 hd1n.2 hd2n.1
    have hv2 : d2 + d2 / 16 + 16 * (d3 % 16) < 256 :=
      nibble_byte_lt d2 (d3 % 16) hd2n.1 hd2n.2 hd3n.1
    have hv3 : d3 + d3 / 16 < 256 := nibble_byte_lt_top d3 hd3n.1 hd3n.2
    have hsb2 := sum_bytes _ _ _ _ hv0 hv1 hv2 hv3
    rw [and_split_bytes _ 0x0F0F0F0F]
    have hmA : (0x0F0F0F0F : Nat) % 256 = 0x0F := by norm_num
    have hmD : (0x0F0F0F0F : Nat) / 16777216 = 0x0F := by norm_num
    rw [hmA, hmD, hsb2.1, hsb2.2.1, hsb2.2.2.1, hsb2.2.2.2,
        byte_mask0F d0 (Nat.lt_of_le_of_lt (byte_step2_le c0 hc0lt) (by norm_num))
          hd0n.1 hd0n.2 (d1 % 16) (Nat.lt_succ_of_le hd1n.1),
        byte_mask0F d1 (Nat.lt_of_le_of_lt (byte_step2_le c1 hc1lt) (by norm_num))
          hd1n.1 hd1n.2 (d2 % 16) (Nat.lt_succ_of_le hd2n.1),
        byte_mask0F d2 (Nat.lt_of_le_of_lt (byte_step2_le c2 hc2lt) (by norm_num))
          hd2n.1 hd2n.2 (d3 % 16) (Nat.lt_succ_of_le hd3n.1),
        byte_mask0F_last d3 (Nat.lt_of_le_of_lt (byte_step2_le c3 hc3lt) (by norm_num))
          hd3n.1 hd3n.2]
  set g0 := d0 % 16 + d0 / 16 with hg0def
  set g1 := d1 % 16 + d1 / 16 with hg1def
  set g2 := d2 % 16 + d2 / 16 with hg2def
  set g3 := d3 % 16 + d3 / 16 with hg3def
  have hg0b : g0 ≤ 8 := by
    rw [hg0def]
    exact Nat.add_le_add hd0n.1 hd0n.2
  have hg1b : g1 ≤ 8 := by
    rw [hg1def]
    exact Nat.add_le_add hd1n.1 hd1n.2
  have hg2b : g2 ≤ 8 := by
    rw [hg2def]
    exact Nat.add_le_add hd2n.1 hd2n.2
  have hg3b : g3 ≤ 8 := by
    rw [hg3def]
    exact Nat.add_le_add hd3n.1 hd3n.2
  -- step 4: (w * 0x01010101) >> 24
  have hfinal := final_mul g0 g1 g2 g3 hg0b hg1b hg2b hg3b
  -- the specification side
  have hbc : bitCount x = bitCount b0 + bitCount b1 + bitCount b2 + bitCount b3 := by
    have h256 : (2 : Nat) ^ 8 = 256 := by norm_num
    have hrepr : x = b0 + 2 ^ 8 * (b1 + 2 ^ 8 * (b2 + 2 ^ 8 * b3)) := by
      rw [h256, hx_sum]
      ring
    rw [hrepr, bitCount_add_mul_two_pow 8 b0 _ hb0,
        bitCount_add_mul_two_pow 8 b1 _ hb1,
        bitCount_add_mul_two_pow 8 b2 _ hb2]
    ring
  have hg0c : g0 = bitCount b0 := by
    rw [hg0def, hd0def, hc0eq]
    exact byte_popcount b0 hb0
  have hg1c : g1 = bitCount b1 := by
    rw [hg1def, hd1def, hc1eq]
    exact byte_popcount b1 hb1
  have hg2c : g2 = bitCount b2 := by
    rw [hg2def, hd2def, hc2eq]
    exact byte_popcount b2 hb2
  have hg3c : g3 = bitCount b3 := by
    rw [hg3def, hd3def, hc3eq]
    exact byte_popcount b3 (Nat.lt_of_lt_of_le hb3 (by norm_num))
  -- assemble the pipeline
  simp only [BITSET_POP_COUNT, BITSET_WORD_LENGTH]
  rw [hP1, hw2, hw3, hw4, hfinal, hg0c, hg1c, hg2c, hg3c, hbc]

/-- Claim C8.  BITSET_CREATE_LITERAL(p) for 0 ≤ p ≤ 30 equals
2^(30 − p): a word with most-significant bit 0 (a literal, as
BITSET_IS_LITERAL_WORD confirms) and exactly one set bit, at payload
position p under the convention that bit 0 is the most-significant
non-sign bit.  BITSET_POP_COUNT counts exactly the set bits among the
31 payload bits of any 32-bit word — its value is the ones count of
w mod 2^31, so the most-significant bit is ignored — and hence returns
1 on every single-bit literal. -/
theorem create_literal_and_popcount :
    (∀ p, p ≤ 30 →
      BITSET_CREATE_LITERAL p = 2 ^ (30 - p) ∧
      BITSET_IS_LITERAL_WORD (BITSET_CREATE_LITERAL p) = true) ∧
    (∀ w, w < 2 ^ 32 → BITSET_POP_COUNT w = bitCount (w % 2 ^ 31)) ∧
    (∀ p, p ≤ 30 → BITSET_POP_COUNT (BITSET_CREATE_LITERAL p) = 1) := by
  refine ⟨by decide, ?_, by decide⟩
  intro w hw
  have h31 : (2 : Nat) ^ 31 = 2147483648 := by norm_num
  rw [h31]
  exact swar_correct w (by omega)

theorem create_literal_and_popcount_witness :
    ((5 : Nat) ≤ 30 ∧
      (BITSET_CREATE_LITERAL 5 = 2 ^ (30 - 5) ∧
        BITSET_IS_LITERAL_WORD (BITSET_CREATE_LITERAL 5) = true)) ∧
    ((0x92345678 : Nat) < 2 ^ 32 ∧
      BITSET_POP_COUNT 0x92345678 = bitCount (0x92345678 % 2 ^ 31)) ∧
    ((7 : Nat) ≤ 30 ∧ BITSET_POP_COUNT (BITSET_CREATE_LITERAL 7) = 1) :=
  ⟨⟨by decide, create_literal_and_popcount.1 5 (by decide)⟩,
   ⟨by decide, create_literal_and_popcount.2.1 0x92345678 (by decide)⟩,
   ⟨by decide, create_literal_and_popcount.2.2 7 (by decide)⟩⟩
